import Mathlib

/-!
Verification of the process-identity subsystem specification for the biscuit
`getpid` reference artifact.

The repository ships a single userland test (`biscuit/user/getpid.c`):

  int main() {
      fork();
      for (i = 0; i < 30000; i++) {
          int pid = getpid();
          asm volatile("" :: "g"(pid) : "memory");
          printf("my pid is %d.\n", pid);
      }
      return 0;
  }

The kernel-side process table, fork engine and identity query exercised by the
test are external to the shipped source; they are modelled here from the
specification (data model, operation contracts, error taxonomy), while the
test program's own control flow is embedded directly from the C source.
-/

namespace Biscuit

/-- Modelled from the spec: `state` of a process record is one of
{Runnable, Exited(exit_code)} (spec section 3). -/
inductive PState where
  | Runnable : PState
  | Exited : Int → PState
deriving DecidableEq

/-- Modelled from the spec: a ProcessRecord holds `pid`, `parent_pid`
(`none` for the root process), `state`, an opaque `snapshot` payload the core
copies but does not interpret (represented as an uninterpreted number), and the
child set maintained by the fork engine (spec sections 3 and 4.2). -/
structure ProcessRecord where
  pid : Nat
  parent_pid : Option Nat
  state : PState
  snapshot : Nat
  children : List Nat
deriving DecidableEq

/-- Modelled from the spec: the error taxonomy of section 7. -/
inductive TErr where
  | ResourceExhausted : TErr
  | InvalidParent : TErr
  | InvalidState : TErr
deriving DecidableEq

/-- Modelled from the spec: the Process Table, the authoritative registry of
live records, carrying the configured identifier-space width and the
monotonically increasing allocation counter (spec section 4.1). -/
structure Table where
  idWidth : Nat
  next : Nat
  recs : List ProcessRecord
deriving DecidableEq

/-- The list of pids of the records currently in the table. -/
def pids (t : Table) : List Nat :=
  t.recs.map (fun r => r.pid)

/-- Whether a pid is held by some (live or zombie, i.e. unreaped) record. -/
def pidInUse (t : Table) (p : Nat) : Bool :=
  t.recs.any (fun r => r.pid == p)

/-- Modelled from the spec: `lookup(pid)`, a read-only fetch of the record
bound to a pid (spec section 4.1); absence is reported as `none`. -/
def lookup (t : Table) (p : Nat) : Option ProcessRecord :=
  t.recs.find? (fun r => r.pid == p)

/-- The pid candidate examined at counter position `cur`: identifiers live in
the space {1, ..., idWidth}, and the counter wraps around that space. -/
def candidate (t : Table) (cur : Nat) : Nat :=
  cur % t.idWidth + 1

/-- The wrapping scan of the identifier space: try up to `tries` consecutive
counter positions starting at `cur`, returning the first candidate pid not in
use by a live or unreaped record (spec section 4.1 allocation policy). -/
def scanFree (t : Table) : Nat → Nat → Option Nat
  | 0, _ => none
  | tries + 1, cur =>
      if pidInUse t (candidate t cur) then scanFree t (tries) (cur + 1)
      else some (candidate t cur)

/-- Modelled from the spec: `allocate(parent_pid, snapshot) -> pid` creates a
new Runnable record with a freshly minted table-unique pid, or fails with
`ResourceExhausted` once the identifier space is exhausted (spec section 4.1).
The table is returned alongside the outcome; on failure it is unchanged. -/
def allocate (t : Table) (parent : Option Nat) (snap : Nat) :
    Except TErr Nat × Table :=
  match scanFree t t.idWidth t.next with
  | none => (Except.error TErr.ResourceExhausted, t)
  | some p =>
      (Except.ok p,
        { t with
          next := p,
          recs := { pid := p, parent_pid := parent, state := PState.Runnable,
                    snapshot := snap, children := [] } :: t.recs })

/-- Replace the state of the record holding pid `p`. -/
def setState (recs : List ProcessRecord) (p : Nat) (s : PState) :
    List ProcessRecord :=
  recs.map (fun r => if r.pid == p then { r with state := s } else r)

/-- Modelled from the spec: `mark_exited(pid, exit_code)` transitions a
Runnable record to Exited and fails with `InvalidState` if the record is
already Exited or does not exist; repeated calls are rejected, not silently
ignored (spec section 4.1). -/
def mark_exited (t : Table) (p : Nat) (code : Int) : Except TErr Unit × Table :=
  match lookup t p with
  | none => (Except.error TErr.InvalidState, t)
  | some r =>
      match r.state with
      | PState.Exited _ => (Except.error TErr.InvalidState, t)
      | PState.Runnable =>
          (Except.ok (), { t with recs := setState t.recs p (PState.Exited code) })

/-- Modelled from the spec: `reap(pid)` permanently removes an Exited record,
failing with `InvalidState` if the record is still Runnable or does not exist
(spec section 4.1). -/
def reap (t : Table) (p : Nat) : Except TErr Unit × Table :=
  match lookup t p with
  | none => (Except.error TErr.InvalidState, t)
  | some r =>
      match r.state with
      | PState.Runnable => (Except.error TErr.InvalidState, t)
      | PState.Exited _ =>
          (Except.ok (), { t with recs := t.recs.filter (fun q => q.pid != p) })

/-- Record the new child's pid in the parent record's child set. -/
def addChild (recs : List ProcessRecord) (p c : Nat) : List ProcessRecord :=
  recs.map (fun r => if r.pid == p then { r with children := c :: r.children } else r)

/-- Modelled from the spec: `fork(parent_pid) -> child_pid` requires the parent
to be a live Runnable record (else `InvalidParent`), duplicates its snapshot,
allocates a child record through the table (propagating `ResourceExhausted`
unchanged), and records the child in the parent's child set (spec section 4.2).
On any failure path the returned table is the composition of the steps actually
performed, none of which mutates. -/
def fork (t : Table) (parent : Nat) : Except TErr Nat × Table :=
  match lookup t parent with
  | none => (Except.error TErr.InvalidParent, t)
  | some r =>
      match r.state with
      | PState.Exited _ => (Except.error TErr.InvalidParent, t)
      | PState.Runnable =>
          match allocate t (some parent) r.snapshot with
          | (Except.error e, t1) => (Except.error e, t1)
          | (Except.ok c, t1) => (Except.ok c, { t1 with recs := addChild t1.recs parent c })

/-- Table well-formedness: pids are pairwise distinct (spec section 3
uniqueness invariant) and drawn from the configured identifier space. -/
def Wf (t : Table) : Prop :=
  (pids t).Nodup ∧ ∀ p ∈ pids t, 1 ≤ p ∧ p ≤ t.idWidth

instance (t : Table) : Decidable (Wf t) := by
  unfold Wf; infer_instance

/-! ## The reference test program (biscuit/user/getpid.c)

`main` forks once, then runs a loop of exactly 30000 iterations, each of which
calls `getpid` once and prints the resulting pid once, and finally returns 0.
The fork return value is discarded. The loop body is embedded as the pair of
observable events it performs; the loop as the recursion over the remaining
iteration count; `main`'s post-fork continuation as a function of the
(discarded) fork return value and the executing process's context. -/

/-- An execution context: the identifier bound to the currently executing
process at its creation (by root-init or by fork's child path). -/
structure Ctx where
  pid : Nat
deriving DecidableEq

/-- Modelled from the spec: `current_pid(ctx) -> pid`, the pure lookup of the
identifier bound to the calling execution context (spec section 4.3). -/
def current_pid (ctx : Ctx) : Nat :=
  ctx.pid

/-- The observable events a process emits: a `getpid` call returning a value,
and a `printf` of a pid. -/
inductive Ev where
  | getpid : Nat → Ev
  | printf : Nat → Ev
deriving DecidableEq

/-- One iteration of the loop of `main` in getpid.c: `int pid = getpid();`
followed by `printf("my pid is %d.\n", pid);`. -/
def loopBody (ctx : Ctx) : List Ev :=
  [Ev.getpid (current_pid ctx), Ev.printf (current_pid ctx)]

/-- The loop `for (i = 0; i < 30000; i++) { ... }` of getpid.c, as a function
of the number of remaining iterations: it emits the body's events once per
iteration and stops after the count is exhausted. -/
def runLoop (ctx : Ctx) : Nat → List Ev
  | 0 => []
  | n + 1 => loopBody ctx ++ runLoop ctx n

/-- `main` of getpid.c after the `fork()` call, in either resulting process:
the fork return value `forkRet` is discarded (the source never reads it), the
loop runs 30000 iterations, and `main` returns 0. The result is the list of
events emitted paired with the exit code. -/
def mainRun (forkRet : Int) (ctx : Ctx) : List Ev × Int :=
  (runLoop ctx 30000, 0)

/-- The sequence of `getpid` results in an event list. -/
def getpidResults (evs : List Ev) : List Nat :=
  evs.filterMap (fun e => match e with | Ev.getpid p => some p | _ => none)

/-- The sequence of printed pids in an event list. -/
def printedPids (evs : List Ev) : List Nat :=
  evs.filterMap (fun e => match e with | Ev.printf p => some p | _ => none)

/-- The operation kind of an event, forgetting the pid value it carries. -/
inductive EvKind where
  | getpid : EvKind
  | printf : EvKind
deriving DecidableEq

/-- Forget the pid value carried by an event, keeping the operation. -/
def evKind : Ev → EvKind
  | Ev.getpid _ => EvKind.getpid
  | Ev.printf _ => EvKind.printf

/-- Modelled from the spec: fork's dual-return contract (spec sections 4.2 and
9) as a tagged variant — the parent execution path observes `Parent child_pid`,
the child execution path observes `Child`. -/
inductive ForkView where
  | Parent : Nat → ForkView
  | Child : ForkView
deriving DecidableEq

/-- The numeric return value each path reads from its fork view: the parent
reads the child's pid, the child reads zero. -/
def viewValue : ForkView → Nat
  | ForkView.Parent c => c
  | ForkView.Child => 0

/-- Modelled from the spec: the pair of observations produced by a single
successful `fork(p)` call — one per resulting execution path — alongside the
updated table; failures carry no observations (spec section 4.2). -/
def forkViews (t : Table) (p : Nat) : Except TErr (ForkView × ForkView) × Table :=
  match fork t p with
  | (Except.ok c, t') => (Except.ok (ForkView.Parent c, ForkView.Child), t')
  | (Except.error e, t') => (Except.error e, t')

/-- Modelled from the spec: any linearization of N concurrent `fork` calls —
the table's mutual-exclusion discipline (spec section 5) makes each call
atomic, so a concurrent execution is some sequence of fork calls, here over an
arbitrary list of calling pids in an arbitrary order. -/
def forkAll (t : Table) : List Nat → List (Except TErr Nat) × Table
  | [] => ([], t)
  | p :: ps =>
      match fork t p with
      | (r, t1) =>
          match forkAll t1 ps with
          | (rs, t2) => (r :: rs, t2)

/-- The child pids returned by the successful calls among a list of fork
outcomes. -/
def okPids (rs : List (Except TErr Nat)) : List Nat :=
  rs.filterMap (fun r => match r with | Except.ok c => some c | _ => none)

/-! ## Basic lemmas about the table operations -/

theorem mem_pids_iff (t : Table) (p : Nat) :
    p ∈ pids t ↔ ∃ r ∈ t.recs, r.pid = p := by
  simp [pids, List.mem_map]

theorem pidInUse_iff (t : Table) (p : Nat) :
    pidInUse t p = true ↔ p ∈ pids t := by
  simp [pidInUse, List.any_eq_true, pids, List.mem_map]

theorem pidInUse_false_iff (t : Table) (p : Nat) :
    pidInUse t p = false ↔ p ∉ pids t := by
  rw [← not_iff_not, Bool.not_eq_false, not_not, pidInUse_iff]

theorem lookup_eq_some (t : Table) (p : Nat) (r : ProcessRecord)
    (h : lookup t p = some r) : r ∈ t.recs ∧ r.pid = p := by
  refine ⟨List.mem_of_find?_eq_some h, ?_⟩
  have hpred := List.find?_some h
  simpa using hpred

theorem lookup_mem_pids (t : Table) (p : Nat) (r : ProcessRecord)
    (h : lookup t p = some r) : p ∈ pids t := by
  obtain ⟨hmem, hpid⟩ := lookup_eq_some t p r h
  exact (mem_pids_iff t p).mpr ⟨r, hmem, hpid⟩

theorem pids_setState (recs : List ProcessRecord) (p : Nat) (s : PState) :
    List.map (fun r => r.pid) (setState recs p s) = List.map (fun r => r.pid) recs := by
  simp only [setState, List.map_map]
  apply List.map_congr_left
  intro r _
  dsimp only [Function.comp]
  split <;> rfl

theorem pids_addChild (recs : List ProcessRecord) (p c : Nat) :
    List.map (fun r => r.pid) (addChild recs p c) = List.map (fun r => r.pid) recs := by
  simp only [addChild, List.map_map]
  apply List.map_congr_left
  intro r _
  dsimp only [Function.comp]
  split <;> rfl

theorem find?_setState (recs : List ProcessRecord) (p : Nat) (s : PState) :
    List.find? (fun r => r.pid == p) (setState recs p s)
      = (List.find? (fun r => r.pid == p) recs).map (fun r => { r with state := s }) := by
  induction recs with
  | nil => rfl
  | cons a l ih =>
      by_cases h : a.pid = p
      · have hb : (a.pid == p) = true := by simpa using h
        simp [setState, List.find?_cons, hb, h]
      · have hb : (a.pid == p) = false := by simpa using h
        simpa [setState, List.find?_cons, hb, h] using ih

theorem candidate_bounds (t : Table) (hw : 0 < t.idWidth) (cur : Nat) :
    1 ≤ candidate t cur ∧ candidate t cur ≤ t.idWidth := by
  unfold candidate
  exact ⟨Nat.succ_le_succ (Nat.zero_le _), Nat.succ_le_of_lt (Nat.mod_lt _ hw)⟩

theorem scanFree_some (t : Table) (hw : 0 < t.idWidth) :
    ∀ tries cur p, scanFree t tries cur = some p →
      pidInUse t p = false ∧ 1 ≤ p ∧ p ≤ t.idWidth := by
  intro tries
  induction tries with
  | zero => intro cur p h; simp [scanFree] at h
  | succ k ih =>
      intro cur p h
      rw [scanFree] at h
      by_cases hc : pidInUse t (candidate t cur) = true
      · rw [if_pos hc] at h
        exact ih (cur + 1) p h
      · rw [if_neg hc] at h
        cases h
        exact ⟨Bool.eq_false_iff.mpr hc, candidate_bounds t hw cur⟩

theorem scanFree_none_of_full (t : Table) (hw : 0 < t.idWidth)
    (hfull : ∀ c, 1 ≤ c → c ≤ t.idWidth → pidInUse t c = true) :
    ∀ tries cur, scanFree t tries cur = none := by
  intro tries
  induction tries with
  | zero => intro cur; rfl
  | succ k ih =>
      intro cur
      rw [scanFree]
      obtain ⟨h1, h2⟩ := candidate_bounds t hw cur
      rw [if_pos (hfull _ h1 h2)]
      exact ih (cur + 1)

theorem allocate_eq_of_scan_none (t : Table) (par : Option Nat) (snap : Nat)
    (hs : scanFree t t.idWidth t.next = none) :
    allocate t par snap = (Except.error TErr.ResourceExhausted, t) := by
  unfold allocate
  rw [hs]

theorem allocate_eq_of_scan_some (t : Table) (par : Option Nat) (snap q : Nat)
    (hs : scanFree t t.idWidth t.next = some q) :
    allocate t par snap =
      (Except.ok q,
        { t with
          next := q,
          recs := { pid := q, parent_pid := par, state := PState.Runnable,
                    snapshot := snap, children := [] } :: t.recs }) := by
  unfold allocate
  rw [hs]

theorem allocate_ok (t : Table) (par : Option Nat) (snap p : Nat) (t' : Table)
    (h : allocate t par snap = (Except.ok p, t')) :
    pidInUse t p = false ∧ 1 ≤ p ∧ p ≤ t.idWidth
    ∧ t'.idWidth = t.idWidth
    ∧ t'.recs = { pid := p, parent_pid := par, state := PState.Runnable,
                  snapshot := snap, children := [] } :: t.recs := by
  cases hs : scanFree t t.idWidth t.next with
  | none =>
      rw [allocate_eq_of_scan_none t par snap hs] at h
      simp at h
  | some q =>
      rw [allocate_eq_of_scan_some t par snap q hs] at h
      have hw : 0 < t.idWidth := by
        rcases Nat.eq_zero_or_pos t.idWidth with h0 | h0
        · rw [h0] at hs; exact absurd hs (by simp [scanFree])
        · exact h0
      have hq := scanFree_some t hw t.idWidth t.next q hs
      simp only [Prod.mk.injEq, Except.ok.injEq] at h
      obtain ⟨hqp, ht⟩ := h
      subst hqp
      rw [← ht]
      exact ⟨hq.1, hq.2.1, hq.2.2, rfl, rfl⟩

theorem allocate_error (t : Table) (par : Option Nat) (snap : Nat) (e : TErr)
    (t' : Table) (h : allocate t par snap = (Except.error e, t')) :
    t' = t ∧ e = TErr.ResourceExhausted := by
  cases hs : scanFree t t.idWidth t.next with
  | none =>
      rw [allocate_eq_of_scan_none t par snap hs] at h
      simp only [Prod.mk.injEq, Except.error.injEq] at h
      exact ⟨h.2.symm, h.1.symm⟩
  | some q =>
      rw [allocate_eq_of_scan_some t par snap q hs] at h
      simp at h

theorem fork_eq_of_lookup_none (t : Table) (p : Nat) (hl : lookup t p = none) :
    fork t p = (Except.error TErr.InvalidParent, t) := by
  simp only [fork, hl]

theorem fork_eq_of_exited (t : Table) (p : Nat) (r : ProcessRecord) (code : Int)
    (hl : lookup t p = some r) (hst : r.state = PState.Exited code) :
    fork t p = (Except.error TErr.InvalidParent, t) := by
  simp only [fork, hl, hst]

theorem fork_eq_of_alloc_error (t : Table) (p : Nat) (r : ProcessRecord) (e : TErr)
    (t1 : Table) (hl : lookup t p = some r) (hst : r.state = PState.Runnable)
    (ha : allocate t (some p) r.snapshot = (Except.error e, t1)) :
    fork t p = (Except.error e, t1) := by
  simp only [fork, hl, hst, ha]

theorem fork_eq_of_alloc_ok (t : Table) (p : Nat) (r : ProcessRecord) (c : Nat)
    (t1 : Table) (hl : lookup t p = some r) (hst : r.state = PState.Runnable)
    (ha : allocate t (some p) r.snapshot = (Except.ok c, t1)) :
    fork t p = (Except.ok c, { t1 with recs := addChild t1.recs p c }) := by
  simp only [fork, hl, hst, ha]

theorem fork_ok (t : Table) (p c : Nat) (t' : Table)
    (h : fork t p = (Except.ok c, t')) :
    (∃ r, lookup t p = some r ∧ r.state = PState.Runnable)
    ∧ pidInUse t c = false ∧ 1 ≤ c ∧ c ≤ t.idWidth
    ∧ t'.idWidth = t.idWidth
    ∧ pids t' = c :: pids t := by
  cases hl : lookup t p with
  | none => rw [fork_eq_of_lookup_none t p hl] at h; simp at h
  | some r =>
      cases hst : r.state with
      | Exited code => rw [fork_eq_of_exited t p r code hl hst] at h; simp at h
      | Runnable =>
          rcases ha : allocate t (some p) r.snapshot with ⟨res, t1⟩
          cases res with
          | error e =>
              rw [fork_eq_of_alloc_error t p r e t1 hl hst ha] at h
              simp at h
          | ok c0 =>
              rw [fork_eq_of_alloc_ok t p r c0 t1 hl hst ha] at h
              simp only [Prod.mk.injEq, Except.ok.injEq] at h
              obtain ⟨hc, ht⟩ := h
              obtain ⟨hfree, h1, h2, hw, hrecs⟩ :=
                allocate_ok t (some p) r.snapshot c0 t1 ha
              rw [hc] at hfree h1 h2 hrecs ht
              refine ⟨⟨r, by simp [hl], by simp [hst]⟩, hfree, h1, h2, ?_, ?_⟩
              · rw [← ht]
                exact hw
              · rw [← ht]
                show List.map (fun q => q.pid) (addChild t1.recs p c) = c :: pids t
                rw [pids_addChild, hrecs]
                simp [pids]

theorem fork_error (t : Table) (p : Nat) (e : TErr) (t' : Table)
    (h : fork t p = (Except.error e, t')) :
    t' = t ∧ (e = TErr.InvalidParent ∨ e = TErr.ResourceExhausted) := by
  cases hl : lookup t p with
  | none =>
      rw [fork_eq_of_lookup_none t p hl] at h
      simp only [Prod.mk.injEq, Except.error.injEq] at h
      exact ⟨h.2.symm, Or.inl h.1.symm⟩
  | some r =>
      cases hst : r.state with
      | Exited code =>
          rw [fork_eq_of_exited t p r code hl hst] at h
          simp only [Prod.mk.injEq, Except.error.injEq] at h
          exact ⟨h.2.symm, Or.inl h.1.symm⟩
      | Runnable =>
          rcases ha : allocate t (some p) r.snapshot with ⟨res, t1⟩
          cases res with
          | error e0 =>
              rw [fork_eq_of_alloc_error t p r e0 t1 hl hst ha] at h
              simp only [Prod.mk.injEq, Except.error.injEq] at h
              obtain ⟨he, ht⟩ := h
              obtain ⟨ht1, he0⟩ := allocate_error t (some p) r.snapshot e0 t1 ha
              subst he
              exact ⟨by rw [← ht, ht1], Or.inr he0⟩
          | ok c0 =>
              rw [fork_eq_of_alloc_ok t p r c0 t1 hl hst ha] at h
              simp at h

theorem mark_exited_eq_of_none (t : Table) (p : Nat) (code : Int)
    (hl : lookup t p = none) :
    mark_exited t p code = (Except.error TErr.InvalidState, t) := by
  simp only [mark_exited, hl]

theorem mark_exited_eq_of_exited (t : Table) (p : Nat) (code c0 : Int)
    (r : ProcessRecord) (hl : lookup t p = some r)
    (hst : r.state = PState.Exited c0) :
    mark_exited t p code = (Except.error TErr.InvalidState, t) := by
  simp only [mark_exited, hl, hst]

theorem mark_exited_eq_of_runnable (t : Table) (p : Nat) (code : Int)
    (r : ProcessRecord) (hl : lookup t p = some r)
    (hst : r.state = PState.Runnable) :
    mark_exited t p code =
      (Except.ok (), { t with recs := setState t.recs p (PState.Exited code) }) := by
  simp only [mark_exited, hl, hst]

theorem reap_eq_of_none (t : Table) (p : Nat) (hl : lookup t p = none) :
    reap t p = (Except.error TErr.InvalidState, t) := by
  simp only [reap, hl]

theorem reap_eq_of_runnable (t : Table) (p : Nat) (r : ProcessRecord)
    (hl : lookup t p = some r) (hst : r.state = PState.Runnable) :
    reap t p = (Except.error TErr.InvalidState, t) := by
  simp only [reap, hl, hst]

theorem reap_eq_of_exited (t : Table) (p : Nat) (r : ProcessRecord) (c0 : Int)
    (hl : lookup t p = some r) (hst : r.state = PState.Exited c0) :
    reap t p = (Except.ok (), { t with recs := t.recs.filter (fun q => q.pid != p) }) := by
  simp only [reap, hl, hst]

theorem lookup_after_mark (t : Table) (p : Nat) (code : Int)
    (r : ProcessRecord) (hl : lookup t p = some r) :
    lookup { t with recs := setState t.recs p (PState.Exited code) } p
      = some { r with state := PState.Exited code } := by
  show List.find? (fun q => q.pid == p) (setState t.recs p (PState.Exited code)) = _
  rw [find?_setState]
  rw [show List.find? (fun q => q.pid == p) t.recs = some r from hl]
  rfl

theorem mark_exited_twice (t : Table) (p : Nat) (code : Int) (t' : Table)
    (h : mark_exited t p code = (Except.ok (), t')) (code2 : Int) :
    mark_exited t' p code2 = (Except.error TErr.InvalidState, t') := by
  cases hl : lookup t p with
  | none => rw [mark_exited_eq_of_none t p code hl] at h; simp at h
  | some r =>
      cases hst : r.state with
      | Exited c0 =>
          rw [mark_exited_eq_of_exited t p code c0 r hl hst] at h
          simp at h
      | Runnable =>
          rw [mark_exited_eq_of_runnable t p code r hl hst] at h
          simp only [Prod.mk.injEq] at h
          have ht : { t with recs := setState t.recs p (PState.Exited code) } = t' := h.2
          rw [← ht]
          exact mark_exited_eq_of_exited _ p code2 code _ (lookup_after_mark t p code r hl) rfl

/-! ## Preservation of the uniqueness invariant -/

theorem Wf_allocate (t : Table) (par : Option Nat) (snap : Nat) (hWf : Wf t) :
    Wf (allocate t par snap).2 := by
  rcases h : allocate t par snap with ⟨res, t'⟩
  cases res with
  | error e =>
      obtain ⟨ht, _⟩ := allocate_error t par snap e t' h
      subst ht
      exact hWf
  | ok p =>
      obtain ⟨hfree, h1, h2, hw, hrecs⟩ := allocate_ok t par snap p t' h
      have hpids : pids t' = p :: pids t := by
        unfold pids
        rw [hrecs]
        rfl
      constructor
      · rw [hpids]
        exact List.nodup_cons.mpr ⟨(pidInUse_false_iff t p).mp hfree, hWf.1⟩
      · intro q hq
        rw [hpids] at hq
        rw [hw]
        rcases List.mem_cons.mp hq with hq | hq
        · subst hq; exact ⟨h1, h2⟩
        · exact hWf.2 q hq

theorem Wf_mark_exited (t : Table) (p : Nat) (code : Int) (hWf : Wf t) :
    Wf (mark_exited t p code).2 := by
  cases hl : lookup t p with
  | none => rw [mark_exited_eq_of_none t p code hl]; exact hWf
  | some r =>
      cases hst : r.state with
      | Exited c0 => rw [mark_exited_eq_of_exited t p code c0 r hl hst]; exact hWf
      | Runnable =>
          rw [mark_exited_eq_of_runnable t p code r hl hst]
          have hpids : pids { t with recs := setState t.recs p (PState.Exited code) }
              = pids t := by
            unfold pids
            exact pids_setState t.recs p (PState.Exited code)
          constructor
          · rw [hpids]; exact hWf.1
          · intro q hq
            rw [hpids] at hq
            exact hWf.2 q hq

theorem Wf_reap (t : Table) (p : Nat) (hWf : Wf t) : Wf (reap t p).2 := by
  cases hl : lookup t p with
  | none => rw [reap_eq_of_none t p hl]; exact hWf
  | some r =>
      cases hst : r.state with
      | Runnable => rw [reap_eq_of_runnable t p r hl hst]; exact hWf
      | Exited c0 =>
          rw [reap_eq_of_exited t p r c0 hl hst]
          have hsub : List.Sublist
              (pids { t with recs := t.recs.filter (fun q => q.pid != p) })
              (pids t) := by
            unfold pids
            exact List.Sublist.map _ (List.filter_sublist t.recs)
          constructor
          · exact List.Nodup.sublist hsub hWf.1
          · intro q hq
            exact hWf.2 q (hsub.subset hq)

theorem Wf_fork (t : Table) (p : Nat) (hWf : Wf t) : Wf (fork t p).2 := by
  rcases h : fork t p with ⟨res, t'⟩
  cases res with
  | error e =>
      obtain ⟨ht, _⟩ := fork_error t p e t' h
      subst ht
      exact hWf
  | ok c =>
      obtain ⟨_, hfree, h1, h2, hw, hpids⟩ := fork_ok t p c t' h
      constructor
      · rw [hpids]
        exact List.nodup_cons.mpr ⟨(pidInUse_false_iff t c).mp hfree, hWf.1⟩
      · intro q hq
        rw [hpids] at hq
        rw [hw]
        rcases List.mem_cons.mp hq with hq | hq
        · subst hq; exact ⟨h1, h2⟩
        · exact hWf.2 q hq

/-! ## Exhaustion: a full identifier space admits no further allocation -/

theorem full_table_all_in_use (t : Table) (hWf : Wf t)
    (hfull : (pids t).length = t.idWidth) :
    ∀ c, 1 ≤ c → c ≤ t.idWidth → pidInUse t c = true := by
  intro c h1 h2
  rw [pidInUse_iff]
  have hsub : (pids t).toFinset ⊆ Finset.Icc 1 t.idWidth := by
    intro q hq
    rw [List.mem_toFinset] at hq
    obtain ⟨a, b⟩ := hWf.2 q hq
    exact Finset.mem_Icc.mpr ⟨a, b⟩
  have hcard : (pids t).toFinset.card = t.idWidth := by
    rw [List.card_toFinset, hWf.1.dedup, hfull]
  have hIcc : (Finset.Icc 1 t.idWidth).card = t.idWidth := by
    rw [Nat.card_Icc]
    omega
  have heq : (pids t).toFinset = Finset.Icc 1 t.idWidth :=
    Finset.eq_of_subset_of_card_le hsub (hIcc.trans hcard.symm).le
  have hc : c ∈ (pids t).toFinset := by
    rw [heq]
    exact Finset.mem_Icc.mpr ⟨h1, h2⟩
  exact List.mem_toFinset.mp hc

/-! ## Linearized concurrent forking -/

theorem forkAll_nil (t : Table) : forkAll t [] = ([], t) := rfl

theorem forkAll_cons (t : Table) (p : Nat) (ps : List Nat) :
    forkAll t (p :: ps)
      = ((fork t p).1 :: (forkAll (fork t p).2 ps).1, (forkAll (fork t p).2 ps).2) := by
  rcases h : fork t p with ⟨r, t1⟩
  rcases h2 : forkAll t1 ps with ⟨rs, t2⟩
  simp only [forkAll, h, h2]

theorem okPids_ok_cons (c : Nat) (rs : List (Except TErr Nat)) :
    okPids (Except.ok c :: rs) = c :: okPids rs := rfl

theorem okPids_error_cons (e : TErr) (rs : List (Except TErr Nat)) :
    okPids (Except.error e :: rs) = okPids rs := rfl

theorem forkAll_pids (ps : List Nat) :
    ∀ t : Table, pids (forkAll t ps).2 = (okPids (forkAll t ps).1).reverse ++ pids t := by
  induction ps with
  | nil => intro t; rfl
  | cons p ps ih =>
      intro t
      rw [forkAll_cons]
      rcases h : fork t p with ⟨res, t1⟩
      cases res with
      | error e =>
          obtain ⟨ht, _⟩ := fork_error t p e t1 h
          subst ht
          simp only [h, okPids_error_cons]
          exact ih t1
      | ok c =>
          have hpids := (fork_ok t p c t1 h).2.2.2.2.2
          simp only [h, okPids_ok_cons, List.reverse_cons, List.append_assoc]
          rw [ih t1, hpids]
          simp

theorem Wf_forkAll (ps : List Nat) :
    ∀ t : Table, Wf t → Wf (forkAll t ps).2 := by
  induction ps with
  | nil => intro t hWf; exact hWf
  | cons p ps ih =>
      intro t hWf
      rw [forkAll_cons]
      exact ih (fork t p).2 (Wf_fork t p hWf)

theorem forkAll_length (ps : List Nat) :
    ∀ t : Table, (forkAll t ps).1.length = ps.length := by
  induction ps with
  | nil => intro t; rfl
  | cons p ps ih =>
      intro t
      rw [forkAll_cons]
      simp [ih (fork t p).2]

theorem okPids_length_of_all_ok (rs : List (Except TErr Nat))
    (h : ∀ r ∈ rs, ∃ c, r = Except.ok c) : (okPids rs).length = rs.length := by
  induction rs with
  | nil => rfl
  | cons a rs ih =>
      obtain ⟨c, rfl⟩ := h a (List.mem_cons_self a rs)
      rw [okPids_ok_cons]
      simp only [List.length_cons]
      rw [ih (fun r hr => h r (List.mem_cons_of_mem _ hr))]

theorem pids_length (t : Table) : (pids t).length = t.recs.length := by
  unfold pids
  exact List.length_map _ _

/-! ## Lemmas about the reference program's loop -/

theorem runLoop_eq_replicate (ctx : Ctx) :
    ∀ n, runLoop ctx n = (List.replicate n (loopBody ctx)).flatten := by
  intro n
  induction n with
  | zero => rfl
  | succ k ih =>
      rw [runLoop, List.replicate_succ, List.flatten_cons, ih]

theorem getpidResults_append (a b : List Ev) :
    getpidResults (a ++ b) = getpidResults a ++ getpidResults b := by
  unfold getpidResults
  simp [List.filterMap_append]

theorem printedPids_append (a b : List Ev) :
    printedPids (a ++ b) = printedPids a ++ printedPids b := by
  unfold printedPids
  simp [List.filterMap_append]

theorem getpidResults_runLoop (ctx : Ctx) :
    ∀ n, getpidResults (runLoop ctx n) = List.replicate n (current_pid ctx) := by
  intro n
  induction n with
  | zero => rfl
  | succ k ih =>
      rw [runLoop, getpidResults_append, ih, List.replicate_succ]
      rfl

theorem printedPids_runLoop (ctx : Ctx) :
    ∀ n, printedPids (runLoop ctx n) = List.replicate n (current_pid ctx) := by
  intro n
  induction n with
  | zero => rfl
  | succ k ih =>
      rw [runLoop, printedPids_append, ih, List.replicate_succ]
      rfl

theorem runLoop_length (ctx : Ctx) : ∀ n, (runLoop ctx n).length = 2 * n := by
  intro n
  induction n with
  | zero => rfl
  | succ k ih =>
      rw [runLoop, List.length_append, ih]
      show 2 + 2 * k = 2 * (k + 1)
      omega

theorem runLoop_kinds (c1 c2 : Ctx) :
    ∀ n, (runLoop c1 n).map evKind = (runLoop c2 n).map evKind := by
  intro n
  induction n with
  | zero => rfl
  | succ k ih =>
      rw [runLoop, runLoop, List.map_append, List.map_append, ih]
      rfl

/-! ## Concrete tables used to exercise the claim theorems -/

/-- A rooted table: identifier space of width 16, one Runnable root record
with pid 1. -/
def sampleTable : Table :=
  { idWidth := 16, next := 0,
    recs := [{ pid := 1, parent_pid := none, state := PState.Runnable,
               snapshot := 0, children := [] }] }

/-- A table whose two-wide identifier space is fully occupied by live
records. -/
def fullTable : Table :=
  { idWidth := 2, next := 0,
    recs := [{ pid := 1, parent_pid := none, state := PState.Runnable,
               snapshot := 0, children := [] },
             { pid := 2, parent_pid := some 1, state := PState.Runnable,
               snapshot := 0, children := [] }] }

/-- A table with no records at all. -/
def emptyTable : Table :=
  { idWidth := 4, next := 0, recs := [] }

/-! ## The claims -/

/-- C1: for any process, every identity query within its lifetime returns the
same value. In the reference scenario the table forks once; the parent process
then obtains its own pid from all 30000 getpid calls of its loop, the child
obtains the child pid from all 30000 of its calls, and the two processes'
results differ from each other. -/
theorem getpid_stability (t : Table) (root c : Nat) (t' : Table)
    (hfork : fork t root = (Except.ok c, t')) :
    getpidResults (runLoop { pid := root } 30000) = List.replicate 30000 root
    ∧ getpidResults (runLoop { pid := c } 30000) = List.replicate 30000 c
    ∧ c ≠ root := by
  refine ⟨getpidResults_runLoop _ 30000, getpidResults_runLoop _ 30000, ?_⟩
  obtain ⟨⟨r, hl, _⟩, hfree, _⟩ := fork_ok t root c t' hfork
  intro hcr
  have hroot : root ∈ pids t := lookup_mem_pids t root r hl
  have hc : c ∉ pids t := (pidInUse_false_iff t c).mp hfree
  exact hc (hcr ▸ hroot)

/-- Witness for C1: in the rooted sample table, fork creates child pid 2 for
parent pid 1, the two processes' 30000 getpid results are constant at 1 and 2
respectively, and they differ. -/
theorem getpid_stability_witness :
    getpidResults (runLoop { pid := 1 } 30000) = List.replicate 30000 1
    ∧ getpidResults (runLoop { pid := 2 } 30000) = List.replicate 30000 2
    ∧ (2 : Nat) ≠ 1 :=
  getpid_stability sampleTable 1 2 (fork sampleTable 1).2 rfl

/-- C2: a single successful fork(p) yields exactly two observations — the
parent path observes the new child's pid, the child path observes the zero
"I am the child" signal — and the two observed values are never equal. -/
theorem fork_dual_return (t : Table) (p c : Nat) (t' : Table)
    (hfork : fork t p = (Except.ok c, t')) :
    forkViews t p = (Except.ok (ForkView.Parent c, ForkView.Child), t')
    ∧ viewValue (ForkView.Parent c) = c
    ∧ viewValue ForkView.Child = 0
    ∧ viewValue (ForkView.Parent c) ≠ viewValue ForkView.Child := by
  refine ⟨?_, rfl, rfl, ?_⟩
  · simp only [forkViews, hfork]
  · have h1 := (fork_ok t p c t' hfork).2.2.1
    show c ≠ 0
    omega

/-- Witness for C2: forking the root of the sample table produces the
observation pair (Parent 2, Child), whose observed values 2 and 0 differ. -/
theorem fork_dual_return_witness :
    forkViews sampleTable 1
      = (Except.ok (ForkView.Parent 2, ForkView.Child), (fork sampleTable 1).2)
    ∧ viewValue (ForkView.Parent 2) = 2
    ∧ viewValue ForkView.Child = 0
    ∧ viewValue (ForkView.Parent 2) ≠ viewValue ForkView.Child :=
  fork_dual_return sampleTable 1 2 (fork sampleTable 1).2 rfl

/-- C3: starting from a table whose pids are pairwise distinct, every table
operation — allocate, mark_exited, reap, and fork — leaves a table whose pids
are again pairwise distinct, whatever its outcome. -/
theorem pid_uniqueness_invariant (t : Table) (hWf : Wf t) :
    (∀ par snap, (pids (allocate t par snap).2).Nodup)
    ∧ (∀ p code, (pids (mark_exited t p code).2).Nodup)
    ∧ (∀ p, (pids (reap t p).2).Nodup)
    ∧ (∀ p, (pids (fork t p).2).Nodup) :=
  ⟨fun par snap => (Wf_allocate t par snap hWf).1,
   fun p code => (Wf_mark_exited t p code hWf).1,
   fun p => (Wf_reap t p hWf).1,
   fun p => (Wf_fork t p hWf).1⟩

/-- Witness for C3: each of the four operations applied to the sample table
yields a table with pairwise distinct pids. -/
theorem pid_uniqueness_invariant_witness :
    (pids (allocate sampleTable (some 1) 0).2).Nodup
    ∧ (pids (mark_exited sampleTable 1 0).2).Nodup
    ∧ (pids (reap sampleTable 1).2).Nodup
    ∧ (pids (fork sampleTable 1).2).Nodup :=
  have h := pid_uniqueness_invariant sampleTable (by decide)
  ⟨h.1 (some 1) 0, h.2.1 1 0, h.2.2.1 1, h.2.2.2 1⟩

/-- C4: reaping a record that is still Runnable fails with InvalidState, and a
second mark_exited on the same pid fails with InvalidState while leaving the
table unchanged — repeated calls are rejected, never silently ignored. -/
theorem lifecycle_ordering (t : Table) (p : Nat) :
    (∀ r, lookup t p = some r → r.state = PState.Runnable →
        reap t p = (Except.error TErr.InvalidState, t))
    ∧ (∀ code t', mark_exited t p code = (Except.ok (), t') →
        ∀ code2, mark_exited t' p code2 = (Except.error TErr.InvalidState, t')) :=
  ⟨fun r hl hst => reap_eq_of_runnable t p r hl hst,
   fun code t' h code2 => mark_exited_twice t p code t' h code2⟩

/-- Witness for C4: in the sample table, reaping the Runnable root fails with
InvalidState, and after a successful mark_exited of the root a second
mark_exited fails with InvalidState. -/
theorem lifecycle_ordering_witness :
    reap sampleTable 1 = (Except.error TErr.InvalidState, sampleTable)
    ∧ mark_exited (mark_exited sampleTable 1 5).2 1 6
        = (Except.error TErr.InvalidState, (mark_exited sampleTable 1 5).2) :=
  ⟨(lifecycle_ordering sampleTable 1).1 _ rfl rfl,
   (lifecycle_ordering sampleTable 1).2 5 (mark_exited sampleTable 1 5).2 rfl 6⟩

/-- C5: when the identifier space has size K and K live (unreaped) records
occupy it, the next allocate call fails with ResourceExhausted instead of
returning a pid, and leaves the table unchanged. -/
theorem allocate_exhaustion (t : Table) (par : Option Nat) (snap : Nat)
    (hWf : Wf t) (hfull : (pids t).length = t.idWidth) :
    allocate t par snap = (Except.error TErr.ResourceExhausted, t) := by
  rcases Nat.eq_zero_or_pos t.idWidth with h0 | h0
  · apply allocate_eq_of_scan_none
    rw [h0]
    rfl
  · exact allocate_eq_of_scan_none t par snap
      (scanFree_none_of_full t h0 (full_table_all_in_use t hWf hfull) t.idWidth t.next)

/-- Witness for C5: the two-wide table holding two live records rejects a
further allocation with ResourceExhausted. -/
theorem allocate_exhaustion_witness :
    allocate fullTable none 0 = (Except.error TErr.ResourceExhausted, fullTable) :=
  allocate_exhaustion fullTable none 0 (by decide) rfl

/-- C6: every failure of fork — InvalidParent for a missing or non-Runnable
parent, or ResourceExhausted propagated from the table — leaves the table, and
in particular the parent's record, exactly as it was: no partial mutation. -/
theorem fork_failure_no_mutation (t : Table) (p : Nat) (e : TErr) (t' : Table)
    (hfork : fork t p = (Except.error e, t')) :
    t' = t
    ∧ (e = TErr.InvalidParent ∨ e = TErr.ResourceExhausted)
    ∧ lookup t' p = lookup t p :=
  have h := fork_error t p e t' hfork
  ⟨h.1, h.2, by rw [h.1]⟩

/-- Witness for C6: forking from the empty table fails with InvalidParent and
returns the table unchanged. -/
theorem fork_failure_no_mutation_witness :
    emptyTable = emptyTable
    ∧ (TErr.InvalidParent = TErr.InvalidParent
        ∨ TErr.InvalidParent = TErr.ResourceExhausted)
    ∧ lookup emptyTable 5 = lookup emptyTable 5 :=
  fork_failure_no_mutation emptyTable 5 TErr.InvalidParent emptyTable rfl

/-- C7: any linearization of N concurrent fork calls over a well-formed table
adds exactly the successfully returned child pids to the table (no allocation
lost or duplicated), those pids are pairwise distinct and fresh, and when all
N calls succeed the table has exactly N new records. -/
theorem concurrent_fork_unique (t : Table) (ps : List Nat) (hWf : Wf t) :
    pids (forkAll t ps).2 = (okPids (forkAll t ps).1).reverse ++ pids t
    ∧ (okPids (forkAll t ps).1).Nodup
    ∧ (∀ c ∈ okPids (forkAll t ps).1, c ∉ pids t)
    ∧ ((∀ r ∈ (forkAll t ps).1, ∃ c, r = Except.ok c) →
        (forkAll t ps).2.recs.length = t.recs.length + ps.length) := by
  have hpids := forkAll_pids ps t
  have hWf2 := Wf_forkAll ps t hWf
  have hnodup : ((okPids (forkAll t ps).1).reverse ++ pids t).Nodup := by
    rw [← hpids]
    exact hWf2.1
  rw [List.nodup_append] at hnodup
  obtain ⟨hn1, hn2, hdisj⟩ := hnodup
  refine ⟨hpids, List.nodup_reverse.mp hn1, ?_, ?_⟩
  · intro c hc
    exact hdisj (List.mem_reverse.mpr hc)
  · intro hall
    have hlen := congrArg List.length hpids
    rw [List.length_append, List.length_reverse, pids_length, pids_length,
        okPids_length_of_all_ok _ hall, forkAll_length ps t] at hlen
    omega

/-- Witness for C7: two fork calls from the root of the sample table create
exactly the two fresh, distinct pids 2 and 3 as new records. -/
theorem concurrent_fork_unique_witness :
    pids (forkAll sampleTable [1, 1]).2
      = (okPids (forkAll sampleTable [1, 1]).1).reverse ++ pids sampleTable
    ∧ (okPids (forkAll sampleTable [1, 1]).1).Nodup
    ∧ (∀ c ∈ okPids (forkAll sampleTable [1, 1]).1, c ∉ pids sampleTable)
    ∧ ((∀ r ∈ (forkAll sampleTable [1, 1]).1, ∃ c, r = Except.ok c) →
        (forkAll sampleTable [1, 1]).2.recs.length
          = sampleTable.recs.length + [1, 1].length) :=
  concurrent_fork_unique sampleTable [1, 1] (by decide)

/-- C8: on every execution path of the reference program — in the parent and
in the child created by fork, whatever value fork returned — main returns
exit code 0. -/
theorem main_exit_zero :
    ∀ (forkRet : Int) (ctx : Ctx), (mainRun forkRet ctx).2 = 0 :=
  fun _ _ => rfl

/-- C9: the loop of the reference program terminates after exactly 30000
iterations in each process: its event trace is exactly 30000 copies of the
loop body, hence exactly 30000 getpid calls and exactly 30000 prints, each
print printing the pid just obtained. -/
theorem loop_iteration_count (ctx : Ctx) :
    runLoop ctx 30000 = (List.replicate 30000 (loopBody ctx)).flatten
    ∧ (runLoop ctx 30000).length = 2 * 30000
    ∧ getpidResults (runLoop ctx 30000) = List.replicate 30000 (current_pid ctx)
    ∧ printedPids (runLoop ctx 30000) = List.replicate 30000 (current_pid ctx) := by
  exact ⟨runLoop_eq_replicate ctx 30000, runLoop_length ctx 30000,
    getpidResults_runLoop ctx 30000, printedPids_runLoop ctx 30000⟩

/-- C10: main's control flow after fork is independent of fork's return value
— the value is discarded, so the whole observable behavior coincides for any
two return values — and for any two pids the operation sequence performed is
identical, differing only in the pid value carried by the events. -/
theorem fork_return_independence :
    (∀ (r1 r2 : Int) (ctx : Ctx), mainRun r1 ctx = mainRun r2 ctx)
    ∧ (∀ (r : Int) (c1 c2 : Ctx),
        (mainRun r c1).1.map evKind = (mainRun r c2).1.map evKind
        ∧ (mainRun r c1).2 = (mainRun r c2).2) :=
  ⟨fun _ _ _ => rfl, fun _ c1 c2 => ⟨runLoop_kinds c1 c2 30000, rfl⟩⟩

end Biscuit
